import Mathlib

/-!
Verification development for `checklist.py` (scikit-bio repository checker).

The script walks a repository tree with `os.walk` and runs four validators:
`InitValidator`, `ExecPermissionValidator`, `GeneratedCythonValidator` and
`APIRegressionValidator`.  We embed the filesystem input as the sequence of
`(root, dirs, files)` triples that `os.walk` yields (top-down, parents before
children), directory paths and dotted import paths as lists of atomic
segments (all real segments are nonempty and contain neither `.` nor the
path separator, so `'.'.join` / `split('.')` round-trip with the lists), and
Python exceptions (`SyntaxError` from `ast.parse`, `TypeError` from
`str + None`) as an `Except` layer, since the script installs no handler:
an exception propagates out of `validate` and out of `main`.
-/

/-- A dotted qualified path, root-most segment first (`"a.b.c"` as `["a","b","c"]`). -/
abbrev QPath := List String

/-- Exceptions the script can raise while validating:
`ast.parse` failure on a malformed file, and the `TypeError` from
concatenating the resolved relative prefix with `node.module` when the
module of a `from`-import is `None` (e.g. `from . import x`). -/
inductive Err where
  | syntaxError
  | typeError
deriving DecidableEq

/-- A top-level statement as seen by `ast.iter_child_nodes`: a plain
`import a.b, c.d` (each alias name given dot-split), a (possibly relative)
`from`-import with its level, optional module (dot-split) and imported
names, or any other statement (ignored by the extractor). -/
inductive Stmt where
  | imp (names : List QPath)
  | impFrom (level : Nat) (module : Option QPath) (names : List String)
  | other
deriving DecidableEq

/-- Contents of a source file: either unparseable (`ast.parse` raises) or a
list of top-level statements. -/
inductive FileContent where
  | malformed
  | parsed (stmts : List Stmt)
deriving DecidableEq

/-- A file in a directory, with the `os.path.splitext` decomposition of its
name, the `os.access(fp, os.X_OK)` bit and the `os.path.getsize` result. -/
structure SrcFile where
  base : String
  ext : String
  executable : Bool
  size : Nat
  content : FileContent
deriving DecidableEq

/-- One `(root, dirs, files)` triple yielded by `os.walk`, the walked
directory path split at the path separator. -/
structure DirEntry where
  path : List String
  dirs : List String
  files : List SrcFile
deriving DecidableEq

/-- The whole `os.walk` sequence for a tree, in yield order (top-down). -/
abbrev Walk := List DirEntry

def joinDot (p : QPath) : String := String.intercalate "." p

def joinPath (p : List String) : String := String.intercalate "/" p

def fileName (f : SrcFile) : String := f.base ++ f.ext

/-- `os.path.join(root, file)`. -/
def filePath (d : List String) (f : SrcFile) : String :=
  joinPath d ++ "/" ++ fileName f

/-- One application of `os.path.split(p)[0]` on a directory path given as
segments: `"a/b" ↦ "a"`, `"a" ↦ ""`, `"" ↦ ""` is exactly `List.dropLast`. -/
def dropLevels : Nat → List String → List String
  | 0, p => p
  | n + 1, p => dropLevels n p.dropLast

/-- `APIRegressionValidator._parse_file`, body of the statement loop: the
records contributed by one top-level node.  For an `ast.Import`, one record
per alias.  For an `ast.ImportFrom` of level `N > 0`, the code sets
`prefix = root`, drops `N-1` components with `os.path.split`, maps the path
separator to `.` and appends `"."`; the empty prefix therefore turns into
the lone string `"."`, which contributes a leading empty segment after
splitting.  `prefix + node.module` raises `TypeError` when the module is
`None` — but only if the comprehension body runs, i.e. `node.names` is
nonempty. -/
def parseStmt (root : List String) : Stmt → Except Err (List QPath)
  | .imp names => .ok names
  | .impFrom level module names =>
    if names = [] then .ok [] else
      match module with
      | none => .error .typeError
      | some m =>
        if level > 0 then
          let base := dropLevels (level - 1) root
          let pfx := if base = [] then [""] else base
          .ok (names.map (fun n => pfx ++ m ++ [n]))
        else
          .ok (names.map (fun n => m ++ [n]))
  | .other => .ok []

/-- The statement loop of `_parse_file`: records accumulate in order; the
first exception aborts the whole call (nothing is returned for the file). -/
def extractStmts (root : List String) : List Stmt → Except Err (List QPath)
  | [] => .ok []
  | s :: rest =>
    match parseStmt root s with
    | .error e => .error e
    | .ok a =>
      match extractStmts root rest with
      | .error e => .error e
      | .ok b => .ok (a ++ b)

/-- `APIRegressionValidator._parse_file`: parse the file (raising
`SyntaxError` on a malformed one), extract the top-level import records,
and keep only those whose first segment is `skbio`. -/
def parseFile (root : List String) : FileContent → Except Err (List QPath)
  | .malformed => .error .syntaxError
  | .parsed stmts =>
    match extractStmts root stmts with
    | .error e => .error e
    | .ok imports => .ok (imports.filter (fun imp => imp.headD "" == "skbio"))

/-- The registry `self._imports`: a Python dict from symbol to its shortest
known dotted path, embedded as an association list with unique keys. -/
abbrev Registry := List (String × QPath)

def lookupReg (k : String) : Registry → Option QPath
  | [] => none
  | (k', v) :: rest => if k' = k then some v else lookupReg k rest

def setReg (k : String) (v : QPath) : Registry → Registry
  | [] => [(k, v)]
  | (k', v') :: rest => if k' = k then (k, v) :: rest else (k', v') :: setReg k v rest

/-- The candidate value `_add_imports` computes for one record: the import
path itself, unless the importing package is a strictly shallower
re-export point, in which case `package + [symbol]`. -/
def candOf (package imp : QPath) : QPath :=
  if package.length + 1 < imp.length then package ++ [imp.getLastD ""] else imp

/-- The registry update for one (key, candidate) pair: insert if absent,
replace only if the stored path is strictly longer. -/
def updStep (st : Registry) (kc : String × QPath) : Registry :=
  match lookupReg kc.1 st with
  | none => setReg kc.1 kc.2 st
  | some sub => if kc.2.length < sub.length then setReg kc.1 kc.2 st else st

/-- Body of the `for import_ in imports` loop of
`APIRegressionValidator._add_imports`. -/
def addImport (package : QPath) (st : Registry) (imp : QPath) : Registry :=
  let key := imp.getLastD ""
  let value := if package.length + 1 < imp.length then package ++ [key] else imp
  match lookupReg key st with
  | some sub => if value.length < sub.length then setReg key value st else st
  | none => setReg key value st

/-- `APIRegressionValidator._add_imports`. -/
def addImports (st : Registry) (imports : List QPath) (package : QPath) : Registry :=
  imports.foldl (addImport package) st

/-- `APIRegressionValidator._minimal_import`: the stored path for the
record's symbol, unless absent or of exactly the same segment count. -/
def minimalImport (st : Registry) (imp : QPath) : Option QPath :=
  let key := imp.getLastD ""
  match lookupReg key st with
  | none => none
  | some substitute => if substitute.length = imp.length then none else some substitute

/-- Result of the first loop of `APIRegressionValidator._validate` over one
directory: the updated registry and the `test_imports` list. -/
structure Phase1Out where
  st : Registry
  testImports : List (String × List QPath)
deriving DecidableEq

/-- First loop of `APIRegressionValidator._validate`: each `.py` file is
parsed; if the directory's last component is `tests` the file's imports are
collected for checking; if the file is `__init__.py` its imports feed the
registry with the directory as package (only `__init__.py` files reach
`_add_imports`).  An exception from `_parse_file` propagates. -/
def phase1 (path : List String) : List SrcFile → Registry → Except Err Phase1Out
  | [], st => .ok ⟨st, []⟩
  | f :: rest, st =>
    if f.ext = ".py" then
      match parseFile path f.content with
      | .error e => .error e
      | .ok imports =>
        let st' := if f.base = "__init__" then addImports st imports path else st
        match phase1 path rest st' with
        | .error e => .error e
        | .ok out =>
          if path.getLastD "" = "tests" then
            .ok ⟨out.st, (filePath path f, imports) :: out.testImports⟩
          else
            .ok ⟨out.st, out.testImports⟩
    else
      phase1 path rest st

/-- `"%s: %s => %s" % (fp, import_, substitute)`. -/
def fmtViolation (fp : String) (used minimal : QPath) : String :=
  fp ++ ": " ++ joinDot used ++ " => " ++ joinDot minimal

/-- Second loop of `APIRegressionValidator._validate`: each collected
test import is checked against the registry as it stands after this
directory. -/
def phase2 (st : Registry) : List (String × List QPath) → List String
  | [] => []
  | (fp, imports) :: rest =>
    imports.filterMap (fun imp => (minimalImport st imp).map (fmtViolation fp imp))
      ++ phase2 st rest

/-- `APIRegressionValidator._validate` on one `os.walk` triple. -/
def apiValidateDir (st : Registry) (e : DirEntry) : Except Err (Registry × List String) :=
  match phase1 e.path e.files st with
  | .error err => .error err
  | .ok out => .ok (out.st, phase2 out.st out.testImports)

/-- The `os.walk` loop of `RepoValidator.validate` for the API validator:
the registry is instance state and threads through the walk (and across
calls); the per-directory invalid strings accumulate in walk order. -/
def apiWalk : Registry → Walk → Except Err (Registry × List String)
  | st, [] => .ok (st, [])
  | st, e :: rest =>
    match apiValidateDir st e with
    | .error err => .error err
    | .ok (st', errs) =>
      match apiWalk st' rest with
      | .error err => .error err
      | .ok (st'', more) => .ok (st'', errs ++ more)

/-- Tail of `RepoValidator.validate`: success and message list from the
accumulated invalids. -/
def repoValidate (reason : String) (invalids : List String) : Bool × List String :=
  if invalids.isEmpty then (true, [])
  else (false, (reason ++ ":") :: invalids.map (fun s => "    " ++ s))

def apiReason : String :=
  "The following tests import `A` but should import `B` (file: A => B)"

/-- `APIRegressionValidator.validate` starting from registry state `st`
(`{}` on a fresh instance): final registry, success flag and message. -/
def apiValidate (st : Registry) (w : Walk) : Except Err (Registry × Bool × List String) :=
  match apiWalk st w with
  | .error err => .error err
  | .ok (st', invalids) =>
    let r := repoValidate apiReason invalids
    .ok (st', r.1, r.2)

/-- `InitValidator._validate`: flag the directory iff `__init__.py` is not
among its files. -/
def initValidateDir (e : DirEntry) : List String :=
  if e.files.any (fun f => fileName f == "__init__.py") then [] else [joinPath e.path]

def skipDirs : List String := ["data", "__pycache__"]

/-- `InitValidator` removes `skip_dirs` from `dirs` in place, so `os.walk`
never descends into them: its walk consists of the entries none of whose
non-root path components is a skipped name. -/
def prunedForInit (w : Walk) : Walk :=
  w.filter (fun e => e.path.tail.all (fun s => !(skipDirs.contains s)))

def initValidate (w : Walk) : Bool × List String :=
  repoValidate "Directories missing init files"
    (((prunedForInit w).map initValidateDir).flatten)

def execExtensions : List String := [".py", ".pyx", ".h", ".c"]

/-- `ExecPermissionValidator._validate`. -/
def execValidateDir (e : DirEntry) : List String :=
  (e.files.filter (fun f => execExtensions.contains f.ext && f.executable)).map
    (filePath e.path)

def execValidate (w : Walk) : Bool × List String :=
  repoValidate "Library code with execute permissions" ((w.map execValidateDir).flatten)

/-- `GeneratedCythonValidator._validate`: each `.pyx` file is flagged when
no same-base `.c` file exists in the directory, or when that file is empty. -/
def cythonValidateDir (e : DirEntry) : List String :=
  (e.files.filter (fun f => f.ext == ".pyx")).filterMap (fun f =>
    match e.files.find? (fun g => g.ext == ".c" && g.base == f.base) with
    | none => some (filePath e.path f)
    | some g => if g.size = 0 then some (filePath e.path f) else none)

def cythonValidate (w : Walk) : Bool × List String :=
  repoValidate "Cython code missing generated C code" ((w.map cythonValidateDir).flatten)

/-- `main`: run the four validators in order on the tree rooted at `skbio`;
every failing validator's message is written to stderr joined by newlines
and followed by a blank line; the return code is 0 iff none failed.  An
exception from the API validator (the only one that can raise) propagates
out of `main`, so no return code and no final report are produced.  (The
three earlier validators run before it raises, matching the list order in
the script.)  Namespaced because a bare `main` is reserved by Lean. -/
def script.main (w : Walk) : Except Err (Nat × String) :=
  match apiWalk [] w with
  | .error err => .error err
  | .ok (_, inv4) =>
    let results := [initValidate w, execValidate w, cythonValidate w,
                    repoValidate apiReason inv4]
    let rc := results.foldl (fun acc r => if r.1 then acc else 1) 0
    let out := String.join ((results.filter (fun r => !r.1)).map
      (fun r => String.intercalate "\n" r.2 ++ "\n\n"))
    .ok (rc, out)

/-! ## Concrete repository trees used as inputs -/

/-- A parseable file with no imports. -/
def emptyPy : FileContent := .parsed []

/-- A non-executable `.py` file of size 1 with the given base name. -/
def pyFile (base : String) (content : FileContent) : SrcFile :=
  ⟨base, ".py", false, 1, content⟩

def testX : SrcFile :=
  pyFile "test_x" (.parsed [.impFrom 0 (some ["skbio", "b", "c"]) ["foo"]])

def initB : SrcFile :=
  pyFile "__init__" (.parsed [.impFrom 0 (some ["skbio", "b", "c"]) ["foo"]])

/-- Walk of a tree where the test directory `skbio/a/tests` is visited
before `skbio/b`, whose `__init__.py` re-exports `foo` at depth 3
(`os.walk` yields siblings in directory order, here `a` before `b`). -/
def W1 : Walk :=
  [⟨["skbio"], ["a", "b"], [pyFile "__init__" emptyPy]⟩,
   ⟨["skbio", "a"], ["tests"], [pyFile "__init__" emptyPy]⟩,
   ⟨["skbio", "a", "tests"], [], [pyFile "__init__" emptyPy, testX]⟩,
   ⟨["skbio", "b"], [], [initB]⟩]

/-- The same tree walked with `skbio/b` before `skbio/a`. -/
def W1rev : Walk :=
  [⟨["skbio"], ["a", "b"], [pyFile "__init__" emptyPy]⟩,
   ⟨["skbio", "b"], [], [initB]⟩,
   ⟨["skbio", "a"], ["tests"], [pyFile "__init__" emptyPy]⟩,
   ⟨["skbio", "a", "tests"], [], [pyFile "__init__" emptyPy, testX]⟩]

def xMod : SrcFile :=
  pyFile "x" (.parsed [.impFrom 0 (some ["skbio", "a", "b"]) ["foo"]])

def initA2 : SrcFile :=
  pyFile "__init__" (.parsed [.impFrom 0 (some ["skbio", "a", "b"]) ["foo"]])

/-- Walk of a tree where the plain (non-`__init__`) module `skbio/x.py`
imports `foo`, and `skbio/a/__init__.py` imports it too. -/
def W3 : Walk :=
  [⟨["skbio"], ["a"], [pyFile "__init__" emptyPy, xMod]⟩,
   ⟨["skbio", "a"], [], [initA2]⟩]

def initDeep : SrcFile :=
  pyFile "__init__" (.parsed [.impFrom 0 (some ["skbio", "a", "b", "c"]) ["foo"]])

def testY : SrcFile :=
  pyFile "test_y" (.parsed [.impFrom 0 (some ["skbio"]) ["foo"]])

/-- Walk of a tree where the only registry entry for `foo` has 4 segments
(`skbio.a.b.foo`, from `skbio/a/b/__init__.py`) while the test imports it
with 2 segments (`from skbio import foo`). -/
def W4 : Walk :=
  [⟨["skbio"], ["a", "tests"], [pyFile "__init__" emptyPy]⟩,
   ⟨["skbio", "a"], ["b"], [pyFile "__init__" emptyPy]⟩,
   ⟨["skbio", "a", "b"], [], [initDeep]⟩,
   ⟨["skbio", "tests"], [], [pyFile "__init__" emptyPy, testY]⟩]

def initSub : SrcFile :=
  pyFile "__init__" (.parsed [.impFrom 0 (some ["skbio", "sub", "mod"]) ["foo"]])

def testFoo : SrcFile :=
  pyFile "test_foo" (.parsed [.impFrom 0 (some ["skbio", "sub", "mod"]) ["foo"]])

/-- Scenario A instantiated at the library namespace: `foo` lives at
`skbio.sub.mod.foo`, `skbio/sub/__init__.py` imports it (so it is reachable
as `skbio.sub.foo`), and `skbio/sub/tests/test_foo.py` imports it the long
way.  `os.walk` is top-down, so `skbio/sub` precedes `skbio/sub/tests`. -/
def W6 : Walk :=
  [⟨["skbio"], ["sub"], [pyFile "__init__" emptyPy]⟩,
   ⟨["skbio", "sub"], ["tests"], [initSub, pyFile "mod" (.parsed [])]⟩,
   ⟨["skbio", "sub", "tests"], [], [pyFile "__init__" emptyPy, testFoo]⟩]

/-- Walk of an existing but empty root directory: `os.walk` yields exactly
one triple, with no subdirectories and no files. -/
def W8 : Walk := [⟨["skbio"], [], []⟩]

/-- Walk of a tree whose `skbio/relmod.py` contains `from . import name`
(an `ast.ImportFrom` with `level = 1` and `module = None`). -/
def W10 : Walk :=
  [⟨["skbio"], [],
    [pyFile "__init__" emptyPy, pyFile "relmod" (.parsed [.impFrom 1 none ["name"]])]⟩]

/-- Walk of a tree with a malformed file `skbio/broken.py` followed by a
further directory `skbio/good` whose `__init__.py` contains an import. -/
def Wbad : Walk :=
  [⟨["skbio"], ["good"], [pyFile "__init__" emptyPy, pyFile "broken" .malformed]⟩,
   ⟨["skbio", "good"], [], [initA2]⟩]

/-! ## Concrete evaluations settling the scenario-style claims -/

/-- C1: the claim states that the imports of every non-test file are added
to the Registry before any test file is checked.  The code instead checks
each directory's test files immediately after processing that directory's
files, against the registry built so far.  On `W1` the non-minimal
test import `skbio.b.c.foo` (minimal alias `skbio.b.foo`, provided by
`skbio/b/__init__.py`, visited after `skbio/a/tests`) goes unflagged, while
walking the same tree with `skbio/b` first flags it — a traversal-order
dependent false negative, contradicting both the claim and the validator's
own docstring (`this checklist will fail if any test doesn't import from
the least deep API target`). -/
theorem C1_single_interleaved_pass :
    apiWalk [] W1 = .ok ([("foo", ["skbio", "b", "foo"])], []) ∧
    apiWalk [] W1rev = .ok ([("foo", ["skbio", "b", "foo"])],
      ["skbio/a/tests/test_x.py: skbio.b.c.foo => skbio.b.foo"]) :=
  ⟨rfl, rfl⟩

/-- C5, counterexample: `validate` run twice on the unmodified tree `W1`
does not yield identical violation lists.  The registry (`self._imports`)
is created in `__init__`, not per `validate` call, so it persists: the
first run reports no violation (the test directory was visited before
`skbio/b`), the second run — starting from the populated registry — reports
one. -/
theorem C5_counterexample :
    apiWalk [] W1 = .ok ([("foo", ["skbio", "b", "foo"])], []) ∧
    apiWalk [("foo", ["skbio", "b", "foo"])] W1 =
      .ok ([("foo", ["skbio", "b", "foo"])],
        ["skbio/a/tests/test_x.py: skbio.b.c.foo => skbio.b.foo"]) :=
  ⟨rfl, rfl⟩

/-- The candidate path a source file offers for a symbol, as defined by the
spec (§4.2): the import path itself if it is at most one segment longer
than the file's package path, else `package + [symbol]`.  Stated from the
spec's words for comparison with what the code actually registers. -/
def specCandidate (packagePath imp : QPath) : QPath :=
  if imp.length ≤ packagePath.length + 1 then imp else packagePath ++ [imp.getLastD ""]

/-- C2, counterexample: after the build over `W3`, the registry stores
`skbio.a.foo` (3 segments) for `foo`, yet the non-test file `skbio/x.py`
(package path `skbio`) offers the candidate `skbio.foo` (2 segments): the
stored path is not the shortest candidate offered by all non-test files,
because only `__init__.py` files ever reach `_add_imports`. -/
theorem C2_counterexample :
    apiWalk [] W3 = .ok ([("foo", ["skbio", "a", "foo"])], []) ∧
    xMod.base = "x" ∧ xMod.ext = ".py" ∧
    parseFile ["skbio"] xMod.content = .ok [["skbio", "a", "b", "foo"]] ∧
    (specCandidate ["skbio"] ["skbio", "a", "b", "foo"]).length <
      (["skbio", "a", "foo"] : QPath).length :=
  ⟨rfl, rfl, rfl, rfl, by decide⟩

/-- C4, counterexample: on `W4` the test import `skbio.foo` (2 segments) is
strictly shorter than the stored path `skbio.a.b.foo` (4 segments), and it
is still reported as an ordinary violation line — `_minimal_import` flags
whenever the lengths differ, in either direction. -/
theorem C4_counterexample :
    apiWalk [] W4 = .ok ([("foo", ["skbio", "a", "b", "foo"])],
      ["skbio/tests/test_y.py: skbio.foo => skbio.a.b.foo"]) ∧
    (["skbio", "foo"] : QPath).length < (["skbio", "a", "b", "foo"] : QPath).length :=
  ⟨rfl, by decide⟩

/-- C6: Scenario A at the library namespace (the extractor keeps only
imports rooted at `skbio`, so `pkg` is `skbio`): `foo` is exposed at
`skbio.sub.mod.foo` (4 segments) and imported by `skbio/sub/__init__.py`
(reachable as `skbio.sub.foo`, 3 segments); the test file importing
`from skbio.sub.mod import foo` is flagged with minimal import
`skbio.sub.foo`. -/
theorem C6_scenario_a :
    apiWalk [] W6 = .ok ([("foo", ["skbio", "sub", "foo"])],
      ["skbio/sub/tests/test_foo.py: skbio.sub.mod.foo => skbio.sub.foo"]) :=
  rfl

/-- C8, counterexample: on the empty tree the init-file check does not
succeed with an empty report — it flags the root directory itself (an
existing directory with no files has no `__init__.py`), and `main`
consequently returns 1 with that report. -/
theorem C8_counterexample :
    initValidate W8 = (false, ["Directories missing init files:", "    skbio"]) ∧
    script.main W8 = .ok (1, "Directories missing init files:\n    skbio\n\n") :=
  ⟨rfl, rfl⟩

/-- C8, amended: on an empty tree the permission, generated-C and
API-regression checks succeed with empty reports, but the init-file check
flags the root directory, so the run fails with return code 1. -/
theorem C8_amended_empty_tree :
    execValidate W8 = (true, []) ∧
    cythonValidate W8 = (true, []) ∧
    apiValidate [] W8 = .ok ([], true, []) ∧
    initValidate W8 = (false, ["Directories missing init files:", "    skbio"]) ∧
    script.main W8 = .ok (1, "Directories missing init files:\n    skbio\n\n") :=
  ⟨rfl, rfl, rfl, rfl, rfl⟩

/-- C3, counterexample: a malformed file is not contained as an extraction
error — `ast.parse` raises, `_parse_file`, `_validate`, `validate` and
`main` have no handler, so the `SyntaxError` propagates out of the whole
run: the later directory `skbio/good` is never processed and no report is
produced. -/
theorem C3_counterexample :
    apiWalk [] Wbad = .error .syntaxError ∧
    script.main Wbad = .error .syntaxError :=
  ⟨rfl, rfl⟩

/-- C10: a top-level `from . import name` (`ast.ImportFrom` with
`module = None`, `level = 1`) makes `prefix + node.module` concatenate a
string with `None`: the Import Extractor raises `TypeError` and the whole
validation run terminates with the exception instead of producing a
report. -/
theorem C10_relative_import_type_error :
    parseFile ["skbio"] (FileContent.parsed [.impFrom 1 none ["name"]]) =
      .error .typeError ∧
    script.main W10 = .error .typeError :=
  ⟨rfl, rfl⟩

/-! ## Registry lemmas -/

theorem lookupReg_setReg_self (k : String) (v : QPath) (st : Registry) :
    lookupReg k (setReg k v st) = some v := by
  induction st with
  | nil => simp [setReg, lookupReg]
  | cons p rest ih =>
    obtain ⟨a, b⟩ := p
    by_cases ha : a = k
    · simp [setReg, ha, lookupReg]
    · simp [setReg, ha, lookupReg, ih]

theorem lookupReg_setReg_ne (k k' : String) (v : QPath) (st : Registry)
    (h : k' ≠ k) : lookupReg k (setReg k' v st) = lookupReg k st := by
  induction st with
  | nil => simp [setReg, lookupReg, h]
  | cons p rest ih =>
    obtain ⟨a, b⟩ := p
    by_cases ha : a = k'
    · subst ha
      simp [setReg, lookupReg, h, ih]
    · simp [setReg, ha, lookupReg, ih]

/-- After one registry step for `(k, c)`, the stored path for `k` is at most
as long as `c`. -/
theorem updStep_self_le (st : Registry) (k : String) (c : QPath) :
    ∃ v, lookupReg k (updStep st (k, c)) = some v ∧ v.length ≤ c.length := by
  unfold updStep
  cases hl : lookupReg k st with
  | none => exact ⟨c, lookupReg_setReg_self k c st, le_rfl⟩
  | some sub =>
    by_cases hlt : c.length < sub.length
    · simp only [hlt, if_true]
      exact ⟨c, lookupReg_setReg_self k c st, le_rfl⟩
    · simp only [hlt, if_false]
      exact ⟨sub, hl, Nat.le_of_not_lt hlt⟩

/-- A registry step never lengthens (nor removes) an existing entry. -/
theorem updStep_mono (st : Registry) (kc : String × QPath) (k : String)
    (v : QPath) (h : lookupReg k st = some v) :
    ∃ v', lookupReg k (updStep st kc) = some v' ∧ v'.length ≤ v.length := by
  obtain ⟨k1, c1⟩ := kc
  by_cases hk : k1 = k
  · subst hk
    unfold updStep
    rw [h]
    by_cases hlt : c1.length < v.length
    · simp only [hlt, if_true]
      exact ⟨c1, lookupReg_setReg_self k1 c1 st, Nat.le_of_lt hlt⟩
    · simp only [hlt, if_false]
      exact ⟨v, h, le_rfl⟩
  · unfold updStep
    cases hl : lookupReg k1 st with
    | none => exact ⟨v, by rw [lookupReg_setReg_ne k k1 c1 st hk]; exact h, le_rfl⟩
    | some sub =>
      by_cases hlt : c1.length < sub.length
      · simp only [hlt, if_true]
        exact ⟨v, by rw [lookupReg_setReg_ne k k1 c1 st hk]; exact h, le_rfl⟩
      · simp only [hlt, if_false]
        exact ⟨v, h, le_rfl⟩

/-- An entry produced by a registry step is either the step's own candidate
or was already present. -/
theorem updStep_mem_src (st : Registry) (kc : String × QPath) (k : String)
    (v : QPath) (h : lookupReg k (updStep st kc) = some v) :
    (k = kc.1 ∧ v = kc.2) ∨ lookupReg k st = some v := by
  obtain ⟨k1, c1⟩ := kc
  unfold updStep at h
  dsimp only at h
  by_cases hk : k1 = k
  · subst hk
    cases hl : lookupReg k1 st with
    | none =>
      rw [hl] at h
      dsimp only at h
      rw [lookupReg_setReg_self] at h
      injection h with h
      exact Or.inl ⟨rfl, h.symm⟩
    | some sub =>
      rw [hl] at h
      dsimp only at h
      by_cases hlt : c1.length < sub.length
      · rw [if_pos hlt, lookupReg_setReg_self] at h
        injection h with h
        exact Or.inl ⟨rfl, h.symm⟩
      · rw [if_neg hlt, hl] at h
        exact Or.inr h
  · cases hl : lookupReg k1 st with
    | none =>
      rw [hl] at h
      dsimp only at h
      rw [lookupReg_setReg_ne k k1 c1 st hk] at h
      exact Or.inr h
    | some sub =>
      rw [hl] at h
      dsimp only at h
      by_cases hlt : c1.length < sub.length
      · rw [if_pos hlt, lookupReg_setReg_ne k k1 c1 st hk] at h
        exact Or.inr h
      · rw [if_neg hlt] at h
        exact Or.inr h

/-- A registry step for a candidate no shorter than the stored entry is a
no-op. -/
theorem updStep_noop (st : Registry) (k : String) (c v : QPath)
    (hl : lookupReg k st = some v) (hle : v.length ≤ c.length) :
    updStep st (k, c) = st := by
  unfold updStep
  rw [hl]
  dsimp only
  rw [if_neg (Nat.not_lt.mpr hle)]

theorem foldl_updStep_mono (cs : List (String × QPath)) :
    ∀ (st : Registry) (k : String) (v : QPath), lookupReg k st = some v →
      ∃ v', lookupReg k (cs.foldl updStep st) = some v' ∧ v'.length ≤ v.length := by
  induction cs with
  | nil => exact fun st k v h => ⟨v, h, le_rfl⟩
  | cons kc rest ih =>
    intro st k v h
    obtain ⟨v1, h1, hle1⟩ := updStep_mono st kc k v h
    obtain ⟨v2, h2, hle2⟩ := ih (updStep st kc) k v1 h1
    exact ⟨v2, h2, le_trans hle2 hle1⟩

/-- Once a candidate `(k, c)` has been offered, the registry holds an entry
for `k` of length at most `c.length` from then on. -/
theorem foldl_updStep_mem_le (cs : List (String × QPath)) :
    ∀ (st : Registry) (k : String) (c : QPath), (k, c) ∈ cs →
      ∃ v, lookupReg k (cs.foldl updStep st) = some v ∧ v.length ≤ c.length := by
  induction cs with
  | nil => simp
  | cons kc rest ih =>
    intro st k c hmem
    rcases List.mem_cons.mp hmem with heq | hrest
    · subst heq
      rw [List.foldl_cons]
      obtain ⟨v1, h1, hle1⟩ := updStep_self_le st k c
      obtain ⟨v2, h2, hle2⟩ := foldl_updStep_mono rest (updStep st (k, c)) k v1 h1
      exact ⟨v2, h2, le_trans hle2 hle1⟩
    · exact ih (updStep st kc) k c hrest

/-- Every final registry entry was offered as a candidate or was present in
the starting registry. -/
theorem foldl_updStep_mem_src (cs : List (String × QPath)) :
    ∀ (st : Registry) (k : String) (v : QPath),
      lookupReg k (cs.foldl updStep st) = some v →
      (k, v) ∈ cs ∨ lookupReg k st = some v := by
  induction cs with
  | nil => exact fun st k v h => Or.inr h
  | cons kc rest ih =>
    intro st k v h
    rw [List.foldl_cons] at h
    rcases ih (updStep st kc) k v h with hin | hsrc
    · exact Or.inl (List.mem_cons_of_mem kc hin)
    · rcases updStep_mem_src st kc k v hsrc with ⟨hk, hv⟩ | h0
      · subst hk; subst hv
        exact Or.inl (List.mem_cons_self _ _)
      · exact Or.inr h0

/-- Re-offering candidates that are all already dominated by the registry
leaves it unchanged. -/
theorem foldl_updStep_noop (cs : List (String × QPath)) :
    ∀ st : Registry,
      (∀ k c, (k, c) ∈ cs → ∃ v, lookupReg k st = some v ∧ v.length ≤ c.length) →
      cs.foldl updStep st = st := by
  induction cs with
  | nil => intro st _; rfl
  | cons kc rest ih =>
    intro st h
    obtain ⟨k1, c1⟩ := kc
    obtain ⟨v, hv, hle⟩ := h k1 c1 (List.mem_cons_self _ _)
    rw [List.foldl_cons, updStep_noop st k1 c1 v hv hle]
    exact ih st (fun k c hm => h k c (List.mem_cons_of_mem _ hm))

/-! ## The trace of candidates offered to the registry during a walk -/

/-- The dict key `_add_imports` files one record under: its last segment. -/
def keyOf (imp : QPath) : String := imp.getLastD ""

/-- The (key, candidate) pairs one file contributes to the registry: only
`.py` files whose base name is `__init__` ever reach `_add_imports`, with
their directory as the package path. -/
def fileContribs (path : List String) (f : SrcFile) : List (String × QPath) :=
  if f.ext = ".py" ∧ f.base = "__init__" then
    ((parseFile path f.content).toOption.getD []).map
      (fun imp => (keyOf imp, candOf path imp))
  else []

def entryContribs (e : DirEntry) : List (String × QPath) :=
  (e.files.map (fileContribs e.path)).flatten

/-- All (key, candidate) pairs offered to the registry over a walk, in
processing order. -/
def contributions (w : Walk) : List (String × QPath) :=
  (w.map entryContribs).flatten

theorem addImport_eq_updStep (package : QPath) (st : Registry) (imp : QPath) :
    addImport package st imp = updStep st (keyOf imp, candOf package imp) := by
  unfold addImport updStep keyOf candOf
  dsimp only
  cases lookupReg (imp.getLastD "") st <;> rfl

theorem addImports_eq_foldl (imports : List QPath) :
    ∀ (st : Registry) (package : QPath),
      addImports st imports package =
        (imports.map (fun imp => (keyOf imp, candOf package imp))).foldl updStep st := by
  induction imports with
  | nil => intro st package; rfl
  | cons imp rest ih =>
    intro st package
    show (imp :: rest).foldl (addImport package) st = _
    rw [List.foldl_cons, List.map_cons, List.foldl_cons, addImport_eq_updStep]
    exact ih (updStep st (keyOf imp, candOf package imp)) package

/-- The registry after the first loop of `_validate` over a directory's
files is the fold of the per-file candidate traces. -/
theorem phase1_st_eq (path : List String) (files : List SrcFile) :
    ∀ (st : Registry) (out : Phase1Out), phase1 path files st = .ok out →
      out.st = ((files.map (fileContribs path)).flatten).foldl updStep st := by
  induction files with
  | nil =>
    intro st out h
    cases h
    rfl
  | cons f rest ih =>
    intro st out h
    unfold phase1 at h
    by_cases hext : f.ext = ".py"
    · rw [if_pos hext] at h
      cases hp : parseFile path f.content with
      | error e => rw [hp] at h; cases h
      | ok imports =>
        rw [hp] at h
        dsimp only at h
        cases hrec : phase1 path rest
            (if f.base = "__init__" then addImports st imports path else st) with
        | error e => rw [hrec] at h; cases h
        | ok out1 =>
          rw [hrec] at h
          dsimp only at h
          have hst : out.st = out1.st := by
            split at h <;> (cases h; rfl)
          have hih := ih _ out1 hrec
          rw [List.map_cons, List.flatten_cons, List.foldl_append, hst, hih]
          by_cases hb : f.base = "__init__"
          · rw [if_pos hb]
            have : fileContribs path f =
                imports.map (fun imp => (keyOf imp, candOf path imp)) := by
              unfold fileContribs
              rw [if_pos ⟨hext, hb⟩, hp]
              rfl
            rw [this, addImports_eq_foldl]
          · rw [if_neg hb]
            have : fileContribs path f = [] := by
              unfold fileContribs
              rw [if_neg (fun hand => hb hand.2)]
            rw [this]
            rfl
    · rw [if_neg hext] at h
      have hih := ih st out h
      have : fileContribs path f = [] := by
        unfold fileContribs
        rw [if_neg (fun hand => hext hand.1)]
      rw [List.map_cons, List.flatten_cons, this, List.nil_append]
      exact hih

/-- The registry after a walk is the fold of all candidates contributed, in
order, over the starting registry. -/
theorem apiWalk_st_eq (w : Walk) :
    ∀ (st st' : Registry) (errs : List String),
      apiWalk st w = .ok (st', errs) →
      st' = (contributions w).foldl updStep st := by
  induction w with
  | nil =>
    intro st st' errs h
    cases h
    rfl
  | cons e rest ih =>
    intro st st' errs h
    unfold apiWalk at h
    cases hd : apiValidateDir st e with
    | error err => rw [hd] at h; cases h
    | ok p =>
      obtain ⟨st1, errs1⟩ := p
      rw [hd] at h
      dsimp only at h
      cases hr : apiWalk st1 rest with
      | error err => rw [hr] at h; cases h
      | ok q =>
        obtain ⟨st2, more⟩ := q
        rw [hr] at h
        dsimp only at h
        cases h
        unfold apiValidateDir at hd
        cases hp : phase1 e.path e.files st with
        | error err => rw [hp] at hd; cases hd
        | ok out =>
          rw [hp] at hd
          dsimp only at hd
          cases hd
          have h1 := phase1_st_eq e.path e.files st out hp
          have h2 := ih _ _ _ hr
          rw [h2, h1]
          unfold contributions entryContribs
          rw [List.map_cons, List.flatten_cons, List.foldl_append]

/-! ## Amended registry claims -/

/-- C2, amended: after a build pass starting from an empty registry, every
registry entry is one of the candidates contributed during the walk, and is
no longer than any candidate contributed for the same symbol — where the
contributing files are exactly the `__init__.py` files encountered
(including those inside `tests` directories), each offering, per record,
the import path or `package + [symbol]` when the package is strictly
shallower.  Plain (non-`__init__`) non-test modules contribute nothing. -/
theorem C2_amended_registry_minimal (w : Walk) (st : Registry)
    (errs : List String) (h : apiWalk [] w = .ok (st, errs)) (k : String)
    (v : QPath) (hk : lookupReg k st = some v) :
    (k, v) ∈ contributions w ∧
      ∀ c, (k, c) ∈ contributions w → v.length ≤ c.length := by
  have hst := apiWalk_st_eq w [] st errs h
  subst hst
  constructor
  · rcases foldl_updStep_mem_src (contributions w) [] k v hk with hin | hsrc
    · exact hin
    · exact absurd hsrc (by simp [lookupReg])
  · intro c hc
    obtain ⟨v', hv', hle⟩ := foldl_updStep_mem_le (contributions w) [] k c hc
    rw [hk] at hv'
    injection hv' with hv'
    rw [hv']
    exact hle

theorem C2_amended_witness :
    ("foo", ["skbio", "a", "foo"]) ∈ contributions W3 ∧
      ∀ c, ("foo", c) ∈ contributions W3 →
        (["skbio", "a", "foo"] : QPath).length ≤ c.length :=
  C2_amended_registry_minimal W3 [("foo", ["skbio", "a", "foo"])] [] rfl
    "foo" ["skbio", "a", "foo"] rfl

/-- C5, amended: running `validate` twice on the same unmodified tree
leaves the Registry identical (re-offered candidates never beat the stored
minima), but the Registry is instance state that persists between the runs
rather than being scoped to one pass, and the two runs' violation lists can
differ (see the counterexample). -/
theorem C5_amended_registry_stable (w : Walk) (st1 st2 : Registry)
    (e1 e2 : List String) (h1 : apiWalk [] w = .ok (st1, e1))
    (h2 : apiWalk st1 w = .ok (st2, e2)) : st2 = st1 := by
  have hs1 := apiWalk_st_eq w [] st1 e1 h1
  have hs2 := apiWalk_st_eq w st1 st2 e2 h2
  rw [hs2]
  apply foldl_updStep_noop
  intro k c hc
  rw [hs1]
  exact foldl_updStep_mem_le (contributions w) [] k c hc

theorem C5_amended_witness :
    ([("foo", ["skbio", "b", "foo"])] : Registry) =
      [("foo", ["skbio", "b", "foo"])] :=
  C5_amended_registry_stable W1 [("foo", ["skbio", "b", "foo"])]
    [("foo", ["skbio", "b", "foo"])] []
    ["skbio/a/tests/test_x.py: skbio.b.c.foo => skbio.b.foo"] rfl rfl

/-- C4, amended: checking a test record against the Registry produces a
violation (a substitute) iff the record's symbol is present and the stored
path's segment count differs from the record's — strictly longer and
strictly shorter alike are reported; only an exactly equal segment count is
silent. -/
theorem C4_amended_violation_iff (st : Registry) (imp sub : QPath) :
    minimalImport st imp = some sub ↔
      lookupReg (imp.getLastD "") st = some sub ∧ sub.length ≠ imp.length := by
  unfold minimalImport
  dsimp only
  cases hl : lookupReg (imp.getLastD "") st with
  | none => simp
  | some s =>
    dsimp only
    by_cases h : s.length = imp.length
    · rw [if_pos h]
      constructor
      · intro hcontra
        exact absurd hcontra (by simp)
      · rintro ⟨heq, hne⟩
        injection heq with heq
        exact absurd (heq ▸ h) hne
    · rw [if_neg h]
      constructor
      · intro heq
        injection heq with heq
        exact ⟨by rw [heq], by rw [← heq]; exact h⟩
      · rintro ⟨heq, _⟩
        exact heq

/-! ## Error propagation (C3 amended) and relative-import round-trip (C7) -/

theorem phase1_error_of_malformed (path : List String) (files : List SrcFile) :
    ∀ st : Registry,
      (∃ f ∈ files, f.ext = ".py" ∧ f.content = FileContent.malformed) →
      ∃ err, phase1 path files st = .error err := by
  induction files with
  | nil => simp
  | cons f0 rest ih =>
    intro st h
    obtain ⟨f, hf, hext, hmal⟩ := h
    rcases List.mem_cons.mp hf with rfl | hrest
    · refine ⟨.syntaxError, ?_⟩
      unfold phase1
      rw [if_pos hext, hmal]
      rfl
    · by_cases hext0 : f0.ext = ".py"
      · cases hp : parseFile path f0.content with
        | error e =>
          refine ⟨e, ?_⟩
          unfold phase1
          rw [if_pos hext0, hp]
        | ok imports =>
          obtain ⟨err, herr⟩ :=
            ih (if f0.base = "__init__" then addImports st imports path else st)
              ⟨f, hrest, hext, hmal⟩
          refine ⟨err, ?_⟩
          unfold phase1
          rw [if_pos hext0, hp]
          dsimp only
          rw [herr]
      · obtain ⟨err, herr⟩ := ih st ⟨f, hrest, hext, hmal⟩
        refine ⟨err, ?_⟩
        unfold phase1
        rw [if_neg hext0]
        exact herr

theorem apiWalk_error_of_malformed (w : Walk) :
    ∀ st : Registry,
      (∃ e ∈ w, ∃ f ∈ e.files, f.ext = ".py" ∧ f.content = FileContent.malformed) →
      ∃ err, apiWalk st w = .error err := by
  induction w with
  | nil => simp
  | cons e0 rest ih =>
    intro st h
    obtain ⟨e, he, hf⟩ := h
    rcases List.mem_cons.mp he with heq | hrest
    · obtain ⟨err, herr⟩ := phase1_error_of_malformed e0.path e0.files st (heq ▸ hf)
      refine ⟨err, ?_⟩
      unfold apiWalk apiValidateDir
      rw [herr]
    · cases hd : apiValidateDir st e0 with
      | error err =>
        refine ⟨err, ?_⟩
        unfold apiWalk
        rw [hd]
      | ok p =>
        obtain ⟨st1, errs1⟩ := p
        obtain ⟨err, herr⟩ := ih st1 ⟨e, hrest, hf⟩
        refine ⟨err, ?_⟩
        unfold apiWalk
        rw [hd]
        dsimp only
        rw [herr]

/-- C3, amended: a malformed source file is not contained as an extraction
error with the traversal continuing — `ast.parse`'s exception propagates
uncaught through `_parse_file`, `_validate`, `validate` and `main`: the
whole run terminates with the exception, later files and directories are
not processed, and no report or return code is produced. -/
theorem C3_amended_parse_error_aborts (w : Walk)
    (h : ∃ e ∈ w, ∃ f ∈ e.files, f.ext = ".py" ∧ f.content = FileContent.malformed) :
    ∃ err, script.main w = .error err := by
  obtain ⟨err, herr⟩ := apiWalk_error_of_malformed w [] h
  refine ⟨err, ?_⟩
  unfold script.main
  rw [herr]

theorem C3_amended_witness : ∃ err, script.main Wbad = .error err :=
  C3_amended_parse_error_aborts Wbad
    ⟨⟨["skbio"], ["good"], [pyFile "__init__" emptyPy, pyFile "broken" .malformed]⟩,
      by decide, pyFile "broken" .malformed, by decide, rfl, rfl⟩

theorem dropLevels_length (n : Nat) :
    ∀ p : List String, (dropLevels n p).length = p.length - n := by
  induction n with
  | zero => intro p; rfl
  | succ m ih =>
    intro p
    show (dropLevels m p.dropLast).length = p.length - (m + 1)
    rw [ih p.dropLast, List.length_dropLast]
    omega

/-- C7: a relative from-import of level `N ≥ 1` with a non-empty stated
module, resolved against the importing file's directory (dropping `N - 1`
trailing components, which stays inside the tree when `N - 1` is less than
the directory's depth), yields exactly the records of the equivalent
absolute from-import written in the same file. -/
theorem C7_relative_roundtrip (root : List String) (level : Nat) (m : QPath)
    (names : List String) (hlevel : 1 ≤ level) (hdepth : level - 1 < root.length)
    (hm : m ≠ []) :
    parseStmt root (Stmt.impFrom level (some m) names) =
      parseStmt root (Stmt.impFrom 0 (some (dropLevels (level - 1) root ++ m)) names) := by
  have hpos : level > 0 := hlevel
  have hbase : ¬(dropLevels (level - 1) root = []) := by
    intro hcontra
    have hlen := dropLevels_length (level - 1) root
    rw [hcontra] at hlen
    simp at hlen
    omega
  unfold parseStmt
  dsimp only
  by_cases hn : names = []
  · rw [if_pos hn, if_pos hn]
  · rw [if_neg hn, if_neg hn, if_pos hpos]
    simp [hbase, List.append_assoc]

theorem C7_witness :
    parseStmt ["skbio", "sub"] (Stmt.impFrom 2 (some ["util"]) ["foo"]) =
      parseStmt ["skbio", "sub"]
        (Stmt.impFrom 0 (some (dropLevels 1 ["skbio", "sub"] ++ ["util"])) ["foo"]) :=
  C7_relative_roundtrip ["skbio", "sub"] 2 ["util"] ["foo"]
    (by decide) (by decide) (by decide)

/-! ## Report structure (C9) -/

theorem phase2_line_form (st : Registry) (tis : List (String × List QPath)) :
    ∀ line ∈ phase2 st tis, ∃ f u m, line = f ++ ": " ++ u ++ " => " ++ m := by
  induction tis with
  | nil => simp [phase2]
  | cons ti rest ih =>
    obtain ⟨fp, imports⟩ := ti
    intro line hline
    unfold phase2 at hline
    rcases List.mem_append.mp hline with hl | hr
    · obtain ⟨imp, _, hmap⟩ := List.mem_filterMap.mp hl
      cases hmin : minimalImport st imp with
      | none => rw [hmin] at hmap; cases hmap
      | some sub =>
        rw [hmin] at hmap
        injection hmap with hmap
        exact ⟨fp, joinDot imp, joinDot sub, hmap.symm⟩
    · exact ih line hr

theorem apiWalk_line_form (w : Walk) :
    ∀ (st st' : Registry) (errs : List String),
      apiWalk st w = .ok (st', errs) →
      ∀ line ∈ errs, ∃ f u m, line = f ++ ": " ++ u ++ " => " ++ m := by
  induction w with
  | nil =>
    intro st st' errs h
    cases h
    simp
  | cons e rest ih =>
    intro st st' errs h line hline
    unfold apiWalk at h
    cases hd : apiValidateDir st e with
    | error err => rw [hd] at h; cases h
    | ok p =>
      obtain ⟨st1, errs1⟩ := p
      rw [hd] at h
      dsimp only at h
      cases hr : apiWalk st1 rest with
      | error err => rw [hr] at h; cases h
      | ok q =>
        obtain ⟨st2, more⟩ := q
        rw [hr] at h
        dsimp only at h
        cases h
        rcases List.mem_append.mp hline with h1 | h2
        · unfold apiValidateDir at hd
          cases hp : phase1 e.path e.files st with
          | error err => rw [hp] at hd; cases hd
          | ok out =>
            rw [hp] at hd
            dsimp only at hd
            cases hd
            exact phase2_line_form out.st out.testImports line h1
        · exact ih _ _ _ hr line h2

/-- C9: on any tree whose API walk raises no exception, `main` returns 0
iff every check passed and 1 otherwise; a check's success flag is false iff
it flagged at least one item (unconditionally: zero flagged items give
success, at least one gives failure); a failing check's report is the
check's fixed reason string (with a colon) followed by one
four-space-indented line per flagged item; and every line flagged by the
API-regression check has the form
`<file>: <used_import> => <minimal_import>`. -/
theorem C9_main_contract (w : Walk) (reg : Registry) (inv4 : List String)
    (rc : Nat) (out : String) (reason : String) (invalids : List String)
    (line : String) (hapi : apiWalk [] w = .ok (reg, inv4))
    (hmain : script.main w = .ok (rc, out)) (hline : line ∈ inv4) :
    ((rc = 0 ∨ rc = 1) ∧
      (rc = 0 ↔ (initValidate w).1 = true ∧ (execValidate w).1 = true ∧
        (cythonValidate w).1 = true ∧ (repoValidate apiReason inv4).1 = true)) ∧
    ((repoValidate reason invalids).1 = false ↔ invalids ≠ []) ∧
    (invalids ≠ [] → (repoValidate reason invalids).2 =
      (reason ++ ":") :: invalids.map (fun s => "    " ++ s)) ∧
    (∃ f u m, line = f ++ ": " ++ u ++ " => " ++ m) := by
  refine ⟨?_, ?_, ?_, ?_⟩
  · unfold script.main at hmain
    rw [hapi] at hmain
    dsimp only at hmain
    injection hmain with hmain
    have hrc : rc = List.foldl (fun acc r => if r.1 = true then acc else 1) 0
        [initValidate w, execValidate w, cythonValidate w,
          repoValidate apiReason inv4] := by
      have := congrArg Prod.fst hmain
      exact this.symm
    rw [hrc]
    cases h1 : (initValidate w).1 <;> cases h2 : (execValidate w).1 <;>
      cases h3 : (cythonValidate w).1 <;>
      cases h4 : (repoValidate apiReason inv4).1 <;>
      simp [List.foldl, h1, h2, h3, h4]
  · unfold repoValidate
    cases invalids with
    | nil => simp
    | cons a rest => simp
  · intro hinv
    unfold repoValidate
    rw [if_neg (by simpa using hinv)]
  · exact apiWalk_line_form w [] reg inv4 hapi line hline

theorem C9_witness :
    (((1 : Nat) = 0 ∨ (1 : Nat) = 1) ∧
      ((1 : Nat) = 0 ↔ (initValidate W6).1 = true ∧ (execValidate W6).1 = true ∧
        (cythonValidate W6).1 = true ∧ (repoValidate apiReason
          ["skbio/sub/tests/test_foo.py: skbio.sub.mod.foo => skbio.sub.foo"]).1 = true)) ∧
    ((repoValidate "reason" ["item"]).1 = false ↔ (["item"] : List String) ≠ []) ∧
    ((["item"] : List String) ≠ [] → (repoValidate "reason" ["item"]).2 =
      ("reason" ++ ":") :: (["item"] : List String).map (fun s => "    " ++ s)) ∧
    (∃ f u m, "skbio/sub/tests/test_foo.py: skbio.sub.mod.foo => skbio.sub.foo" =
      f ++ ": " ++ u ++ " => " ++ m) :=
  C9_main_contract W6 [("foo", ["skbio", "sub", "foo"])]
    ["skbio/sub/tests/test_foo.py: skbio.sub.mod.foo => skbio.sub.foo"] 1
    ("The following tests import `A` but should import `B` (file: A => B):\n    skbio/sub/tests/test_foo.py: skbio.sub.mod.foo => skbio.sub.foo\n\n")
    "reason" ["item"]
    "skbio/sub/tests/test_foo.py: skbio.sub.mod.foo => skbio.sub.foo"
    rfl rfl (by decide)
